import Mathlib

/-!
Shallow embedding of the duck-impl interface-extraction engine.

The program locates a Go interface declaration, flattens its method set and
renders every method signature to text so that a closure-based adapter type
can be generated.  The repository holds three variants of the tool; the
newest one (src/unnamed/part_001) adds a type-checked extraction path on top
of the shared syntax-only path.  The definitions below translate, function
by function, the parts of the source that the claims reference:

* the Go AST fragment consumed by formatNode / extractParams /
  extractMethodsFromInterface / findEmbeddedInterfaceMethods (the
  syntax-only path, identical in src/main.go and src/unnamed/part_001);
* the typed extraction loop of parseInterfaceWithTypes
  (src/unnamed/part_001 lines 237-296), over an explicit model of
  go/types variables and type printing;
* SplitRight and the reference parsing done by parseInterface
  (src/unnamed/part_001 lines 107-124);
* the import aggregation done by main (src/unnamed/part_001 lines 82-90);
* the template helper functions formatMethodParams, formatMethodResults
  and callParams used by Generate;
* the typed-to-syntactic fallback dispatch of parseInterface
  (src/unnamed/part_001 lines 115-139), with the two I/O-bound extraction
  paths abstracted as an injected oracle.

Go maps iterate in unspecified order; the model fixes insertion order.
Strings are modelled through their character lists (the inputs of interest
are ASCII, where Go byte indices and character indices agree).
-/

namespace DuckImpl

mutual
/-- Go AST expression nodes, as far as formatNode (main.go lines 384-417)
distinguishes them.  Node kinds that fall into the default branch of the
switch carry the Go dynamic type name that fmt's %T verb would print;
ast.Ellipsis (a variadic parameter type, %T = *ast.Ellipsis) is one of
them and gets its own constructor because the variadic rendering depends
on it. -/
inductive Expr : Type where
  | ident (name : String)
  | selector (x : Expr) (sel : String)
  | star (x : Expr)
  | arrayVar (elt : Expr)
  | arrayFixed (len : Expr) (elt : Expr)
  | mapT (key : Expr) (value : Expr)
  | ifaceT (methods : FieldList)
  | funcT (params : OFieldList) (results : OFieldList)
  | basicLit (value : String)
  | chanSend (value : Expr)
  | chanRecv (value : Expr)
  | chanBoth (value : Expr)
  | ellipsisT (elt : Expr)
  | unknownNode (goTypeName : String)

/-- a possibly-nil *ast.FieldList pointer. -/
inductive OFieldList : Type where
  | onil
  | ofl (fl : FieldList)

/-- ast.FieldList.List, the field slice. -/
inductive FieldList : Type where
  | fnil
  | fcons (f : Field) (rest : FieldList)

/-- ast.Field: a list of names sharing one type expression. -/
inductive Field : Type where
  | mk (names : List String) (type : Expr)
end

/-- ast.FieldList.NumFields: each field counts len(Names), or 1 when it has
no names. -/
def numFieldsFL : FieldList → Nat
  | .fnil => 0
  | .fcons (.mk names _) rest =>
      (if names.length > 0 then names.length else 1) + numFieldsFL rest

mutual
/-- formatNode (main.go lines 384-417; identical in the other variants):
renders a type expression to Go source text.  Unhandled node kinds reach
the default branch, which prints an inline marker with the node's dynamic
type name. -/
def formatNode : Expr → String
  | .ident name => name
  | .selector x sel => formatNode x ++ "." ++ sel
  | .star x => "*" ++ formatNode x
  | .arrayVar elt => "[]" ++ formatNode elt
  | .arrayFixed len elt => "[" ++ formatNode len ++ "]" ++ formatNode elt
  | .mapT key value => "map[" ++ formatNode key ++ "]" ++ formatNode value
  | .ifaceT _ => "interface\x7b\x7d"
  | .funcT params results =>
      "func" ++ formatFuncParams params ++ formatFuncResults results
  | .basicLit value => value
  | .chanSend value => "chan<- " ++ formatNode value
  | .chanRecv value => "<-chan " ++ formatNode value
  | .chanBoth value => "chan " ++ formatNode value
  | .ellipsisT _ => "/* unsupported: *ast.Ellipsis */"
  | .unknownNode goTypeName => "/* unsupported: " ++ goTypeName ++ " */"

/-- formatFuncParams (main.go lines 419-438). -/
def formatFuncParams : OFieldList → String
  | .onil => "()"
  | .ofl fl => "(" ++ String.intercalate ", " (fieldStrs fl) ++ ")"

/-- formatFuncResults (main.go lines 440-463): empty renders as nothing, a
single unnamed field as a space-prefixed bare type, anything else as a
space-prefixed parenthesized list. -/
def formatFuncResults : OFieldList → String
  | .onil => ""
  | .ofl fl =>
      if numFieldsFL fl = 0 then ""
      else
        match fl with
        | .fnil => ""
        | .fcons (.mk names ty) rest =>
            if numFieldsFL (.fcons (.mk names ty) rest) = 1 ∧ names.length = 0 then
              " " ++ formatNode ty
            else
              " (" ++ String.intercalate ", "
                (fieldStrs (.fcons (.mk names ty) rest)) ++ ")"

/-- the field loop shared verbatim by extractParams, formatFuncParams and
formatFuncResults: named fields expand to one "name type" entry per name,
an unnamed field to its bare type string. -/
def fieldStrs : FieldList → List String
  | .fnil => []
  | .fcons (.mk names ty) rest =>
      (if names.length > 0 then names.map (fun n => n ++ " " ++ formatNode ty)
       else [formatNode ty]) ++ fieldStrs rest
end

/-- extractParams (main.go lines 361-382): nil field list yields no entries,
otherwise the shared field loop runs. -/
def extractParams : OFieldList → List String
  | .onil => []
  | .ofl fl => fieldStrs fl

/-- the Method record (part_001 lines 22-27).  The Imports field stays nil
(`none`) on the syntax-only path; main.go's older Method lacks the field,
which its extraction leaves untouched anyway. -/
structure Method where
  methodName : String
  parameters : List String
  results : List String
  imports : Option (List (String × Bool))

/-- a package's type declarations: TypeSpec name paired with its type
expression.  Go walks files of an ast.Package map; the model flattens them
into one list in a fixed order. -/
abbrev Pkg := List (String × Expr)

/-- the stdLibPkgs map passed through the syntactic extraction: package name
to parsed package.  Nil map is the empty list. -/
abbrev PkgEnv := List (String × Pkg)

/-- map lookup stdLibPkgs[pkgName] (nil result modelled as none). -/
def lookupPkg : PkgEnv → String → Option Pkg
  | [], _ => none
  | (n, p) :: rest, key => if n = key then some p else lookupPkg rest key

/-- the declaration scan inside findEmbeddedInterfaceMethods (main.go lines
334-355): the first TypeSpec whose name matches and whose type is an
interface shape; a matching name with a non-interface shape is skipped. -/
def findIfaceDecl : Pkg → String → Option FieldList
  | [], _ => none
  | (n, ty) :: rest, interfaceName =>
      if n = interfaceName then
        match ty with
        | .ifaceT fl => some fl
        | _ => findIfaceDecl rest interfaceName
      else findIfaceDecl rest interfaceName

/-- one iteration of the field loop of extractMethodsFromInterface (main.go
lines 293-325): named fields become methods when their type is a FuncType;
an unnamed field is an embedding, resolved through the given callback (a
bare identifier passes an empty package name, a selector with identifier
receiver passes its package name; other shapes are ignored). -/
def processField (resolveEmbedded : String → String → List Method) :
    Field → List Method
  | .mk names ty =>
      if names.length > 0 then
        match ty with
        | .funcT ps rs =>
            names.map (fun n =>
              ⟨n, extractParams ps, extractParams rs, none⟩)
        | _ => []
      else
        match ty with
        | .ident name => resolveEmbedded name ""
        | .selector (.ident pkgName) sel => resolveEmbedded sel pkgName
        | _ => []

/-- the field loop of extractMethodsFromInterface over the whole list. -/
def processFields (resolveEmbedded : String → String → List Method) :
    FieldList → List Method
  | .fnil => []
  | .fcons f rest =>
      processField resolveEmbedded f ++ processFields resolveEmbedded rest

/-- findEmbeddedInterfaceMethods (main.go lines 330-359): only a non-empty
package name present in stdLibPkgs is searched; on a hit the found
interface is extracted recursively (the recursive extractor is passed
explicitly so that the Go mutual recursion becomes fuel-indexed below);
every other case returns the empty method list. -/
def findEmbeddedInterfaceMethods (extractRec : FieldList → List Method)
    (interfaceName pkgName : String) (stdLibPkgs : PkgEnv) : List Method :=
  if pkgName ≠ "" then
    match lookupPkg stdLibPkgs pkgName with
    | some pkg =>
        match findIfaceDecl pkg interfaceName with
        | some ifaceMethods => extractRec ifaceMethods
        | none => []
    | none => []
  else []

/-- extractMethodsFromInterface (main.go lines 290-328, part_001 lines
574-612), taking the interface's field list.  The Go function recurses
into findEmbeddedInterfaceMethods without a bound; the fuel argument
bounds the embedding depth (a model artifact: at depth 0 an embedded
interface found in stdLibPkgs contributes nothing, which the Go code only
reaches by non-termination on cyclic embeddings).  All claims are settled
at depths the fuel covers. -/
def extractMethodsFromInterface : Nat → PkgEnv → FieldList → List Method
  | 0, stdLibPkgs, fl =>
      processFields (fun iname pname =>
        findEmbeddedInterfaceMethods (fun _ => []) iname pname stdLibPkgs) fl
  | fuel + 1, stdLibPkgs, fl =>
      processFields (fun iname pname =>
        findEmbeddedInterfaceMethods
          (fun ifl => extractMethodsFromInterface fuel stdLibPkgs ifl)
          iname pname stdLibPkgs) fl

/-! Typed extraction path (src/unnamed/part_001, parseInterfaceWithTypes). -/

/-- go/types type expressions as far as the typed extraction prints them:
basic types, named types from a package, slices and pointers. -/
inductive TType : Type where
  | basic (name : String)
  | named (pkgName : String) (name : String)
  | slice (elem : TType)
  | ptr (elem : TType)

/-- types.TypeString with the qualifier `func (p) string \x7b return p.Name() \x7d`
used for parameter and result types (part_001 lines 254 and 282). -/
def typeStringQualified : TType → String
  | .basic name => name
  | .named pkgName name => pkgName ++ "." ++ name
  | .slice elem => "[]" ++ typeStringQualified elem
  | .ptr elem => "*" ++ typeStringQualified elem

/-- types.TypeString with the qualifier returning "" used for the variadic
element type (part_001 line 260): named types print unqualified. -/
def typeStringBare : TType → String
  | .basic name => name
  | .named _ name => name
  | .slice elem => "[]" ++ typeStringBare elem
  | .ptr elem => "*" ++ typeStringBare elem

/-- a go/types variable (parameter or result): its name, type, the import
paths of its originating package (param.Pkg().Imports()) and the printed
origin declaration (param.Origin().String()) that the import-usage
heuristic greps. -/
structure TVar where
  name : String
  type : TType
  pkgImportPaths : List String
  originString : String

/-- a method signature from the typed interface: ordered parameters and
results plus the variadic flag. -/
structure TSig where
  params : List TVar
  results : List TVar
  variadic : Bool

/-- strings.Contains(s, substr). -/
def strContains (s substr : String) : Bool :=
  (List.range (s.data.length + 1)).any
    (fun i => substr.data.isPrefixOf (s.data.drop i))

/-- a Go map assignment m[key] = value on a map modelled as an association
list in insertion order. -/
def goMapSet (m : List (String × Bool)) (key : String) (value : Bool) :
    List (String × Bool) :=
  if m.any (fun kv => kv.1 == key) then
    m.map (fun kv => if kv.1 = key then (key, value) else kv)
  else m ++ [(key, value)]

/-- the per-variable import scan (part_001 lines 250-253 and 277-280): for
every import path of the variable's package, record whether the printed
origin contains that path. -/
def collectVarImports (m : List (String × Bool)) (v : TVar) :
    List (String × Bool) :=
  v.pkgImportPaths.foldl
    (fun acc path => goMapSet acc path (strContains v.originString path)) m

/-- the parameter rendering of the typed path (part_001 lines 254-271):
qualified type string, variadic marker for the last parameter of a
variadic signature when its type is a slice, and the synthesized name
arg<index> for unnamed parameters. -/
def renderParam (variadic : Bool) (numParams j : Nat) (p : TVar) : String :=
  let paramTypeStr := typeStringQualified p.type
  let paramTypeStr2 :=
    if variadic = true ∧ j = numParams - 1 then
      match p.type with
      | .slice elem => "..." ++ typeStringBare elem
      | _ => paramTypeStr
    else paramTypeStr
  let paramName := if p.name = "" then "arg" ++ toString j else p.name
  paramName ++ " " ++ paramTypeStr2

/-- the indexed parameter loop `for j := range sig.Params().Len()`. -/
def renderParamsFrom (variadic : Bool) (numParams j : Nat) :
    List TVar → List String
  | [] => []
  | p :: rest =>
      renderParam variadic numParams j p ::
        renderParamsFrom variadic numParams (j + 1) rest

/-- the result rendering of the typed path (part_001 lines 282-290): a
named result renders as "name type", an unnamed one as the bare type. -/
def renderResult (r : TVar) : String :=
  let resultTypeStr := typeStringQualified r.type
  if r.name = "" then resultTypeStr else r.name ++ " " ++ resultTypeStr

/-- one iteration of the method loop of parseInterfaceWithTypes (part_001
lines 237-296).  The local imports map accumulates over parameters, then
results; `method.Imports = imports` is executed only inside the results
loop (line 292), and since Go maps alias, a method with at least one
result ends with the fully accumulated map while a method with zero
results keeps a nil Imports map. -/
def typedMethodOf (methName : String) (sig : TSig) : Method :=
  let importsAfterParams := sig.params.foldl collectVarImports []
  let importsFinal := sig.results.foldl collectVarImports importsAfterParams
  ⟨methName,
   renderParamsFrom sig.variadic sig.params.length 0 sig.params,
   sig.results.map renderResult,
   match sig.results with
   | [] => none
   | _ :: _ => some importsFinal⟩

/-! Reference parsing and main-level plumbing (src/unnamed/part_001). -/

/-- strings.LastIndex(s, sep) over character lists: the largest index at
which sep starts, none when sep does not occur.  Go returns len(s) for an
empty sep, which the recursion reproduces. -/
def listLastIndex (sep : List Char) : List Char → Option Nat
  | [] => if sep = [] then some 0 else none
  | c :: rest =>
      match listLastIndex sep rest with
      | some i => some (i + 1)
      | none => if sep.isPrefixOf (c :: rest) then some 0 else none

/-- SplitRight (part_001 lines 107-113): split on the last occurrence of
the separator; a missing separator returns the whole string alone. -/
def SplitRight (s sep : String) : List String :=
  match listLastIndex sep.data s.data with
  | none => [s]
  | some idx =>
      [String.mk (s.data.take idx),
       String.mk (s.data.drop (idx + sep.data.length))]

/-- the reference parsing at the top of parseInterface (part_001 lines
117-124): with more than one SplitRight part, pkgPath is the first part
and intName the last; otherwise the whole reference is the interface name
and the package path is empty. -/
def parseReference (interfaceName : String) : String × String :=
  let parts := SplitRight interfaceName "."
  if parts.length > 1 then (parts.headD "", parts.getLastD interfaceName)
  else ("", interfaceName)

/-- the import aggregation in main (part_001 lines 82-90): for every
method, every map entry flagged in-use is appended.  Iteration order of a
Go map is unspecified; the model iterates the association list in
insertion order.  A nil map (a method with no results) contributes no
iterations.  No deduplication happens across methods. -/
def collectImports (methods : List Method) : List String :=
  methods.foldl
    (fun imports m =>
      match m.imports with
      | none => imports
      | some entries =>
          entries.foldl
            (fun acc e => if e.2 then acc ++ [e.1] else acc) imports)
    []

/-- Generator.formatMethodParams (main.go lines 466-471). -/
def formatMethodParams (params : List String) : String :=
  match params with
  | [] => "()"
  | _ => "(" ++ String.intercalate ", " params ++ ")"

/-- Generator.formatMethodResults (main.go lines 473-478): every non-empty
result list renders parenthesized. -/
def formatMethodResults (results : List String) : String :=
  match results with
  | [] => ""
  | _ => " (" ++ String.intercalate ", " results ++ ")"

/-- the index of the first space character, for strings.SplitN(s, " ", 2). -/
def firstIndexOfSpace : List Char → Option Nat
  | [] => none
  | c :: rest =>
      if c = ' ' then some 0 else (firstIndexOfSpace rest).map (· + 1)

/-- strings.SplitN(s, " ", 2): at most two parts, split at the first
space. -/
def splitN2 (s : String) : List String :=
  match firstIndexOfSpace s.data with
  | none => [s]
  | some i => [String.mk (s.data.take i), String.mk (s.data.drop (i + 1))]

/-- the callParams template helper (main.go lines 514-526): every rendered
parameter entry is reduced to its first SplitN part (SplitN always returns
a non-empty slice, so indexing parts[0] is total). -/
def callParams (params : List String) : String :=
  match params with
  | [] => "()"
  | _ =>
      "(" ++ String.intercalate ", "
        (params.map (fun param => (splitN2 param).headD "")) ++ ")"

/-- the two extraction paths abstracted as an oracle: each maps
(dir, pkgPath, intName) to methods and a host package name or an error.
Their bodies shell out to the Go toolchain and the filesystem, so only the
dispatch between them is modelled concretely. -/
structure ResolutionWorld where
  typedPath : String → String → String → Except String (List Method × String)
  astPath : String → String → String → Except String (List Method × String)

/-- parseInterface (part_001 lines 115-139): parse the reference, try the
typed path, and on any typed-path error run the AST fallback on the same
(dir, pkgPath, intName); the fallback's outcome is what the caller sees. -/
def parseInterfaceRun (w : ResolutionWorld) (dir interfaceName : String) :
    Except String (List Method × String) :=
  let ref := parseReference interfaceName
  match w.typedPath dir ref.1 ref.2 with
  | .ok r => .ok r
  | .error _ => w.astPath dir ref.1 ref.2

/-! Concrete inputs used by the closed theorems below. -/

/-- field list of a one-method interface Reader \x7b Read() \x7d. -/
def ioReaderFL : FieldList := .fcons (.mk ["Read"] (.funcT .onil .onil)) .fnil

/-- a stdLibPkgs map holding package io with interface Reader. -/
def stdEnvC1 : PkgEnv := [("io", [("Reader", Expr.ifaceT ioReaderFL)])]

/-- an interface embedding io.Reader and then declaring its own Read(). -/
def embFLC1 : FieldList :=
  .fcons (.mk [] (.selector (.ident "io") "Reader"))
    (.fcons (.mk ["Read"] (.funcT .onil .onil)) .fnil)

/-- an interface declaring Foo(args ...string), as the syntax-only parser
sees it: the parameter type is an ast.Ellipsis node. -/
def variadicFLC3 : FieldList :=
  .fcons (.mk ["Foo"]
    (.funcT (.ofl (.fcons (.mk ["args"] (.ellipsisT (.ident "string"))) .fnil))
      .onil)) .fnil

/-- the typed signature of Foo(args ...string). -/
def sigC3 : TSig := ⟨[⟨"args", .slice (.basic "string"), [], ""⟩], [], true⟩

/-- an interface declaring Foo(int) with an unnamed parameter, as the
syntax-only parser sees it. -/
def unnamedParamFLC4 : FieldList :=
  .fcons (.mk ["Foo"]
    (.funcT (.ofl (.fcons (.mk [] (.ident "int")) .fnil)) .onil)) .fnil

/-- a typed signature with one unnamed int parameter and one unnamed
string result. -/
def sigC4 : TSig := ⟨[⟨"", .basic "int", [], ""⟩], [⟨"", .basic "string", [], ""⟩], false⟩

/-- a typed method MA() io.Reader whose declaring package imports io. -/
def sigC6A : TSig :=
  ⟨[], [⟨"", .named "io" "Reader", ["io"], "func (EncoderA) MA() io.Reader"⟩], false⟩

/-- a typed method MB() io.Writer whose declaring package imports io. -/
def sigC6B : TSig :=
  ⟨[], [⟨"", .named "io" "Writer", ["io"], "func (EncoderB) MB() io.Writer"⟩], false⟩

/-- an oracle whose typed path always fails and whose AST fallback
succeeds. -/
def worldC9 : ResolutionWorld :=
  ⟨fun _ _ _ => .error "typed resolution failed",
   fun _ _ _ => .ok ([], "mypkg")⟩

/-- FieldList concatenation, for stating the embedding splice. -/
def appendFL : FieldList → FieldList → FieldList
  | .fnil, b => b
  | .fcons f rest, b => .fcons f (appendFL rest b)

/-- own method Close() declared before an embedding. -/
def preFLC1 : FieldList := .fcons (.mk ["Close"] (.funcT .onil .onil)) .fnil

/-- own method Flush() declared after an embedding. -/
def postFLC1 : FieldList := .fcons (.mk ["Flush"] (.funcT .onil .onil)) .fnil

/-! Helper lemmas. -/

/-- the field loop distributes over field-list concatenation. -/
theorem processFields_append (r : String → String → List Method) :
    ∀ (a b : FieldList),
      processFields r (appendFL a b) = processFields r a ++ processFields r b
  | .fnil, b => by simp [appendFL, processFields]
  | .fcons f rest, b => by
      simp [appendFL, processFields, processFields_append r rest b]

/-- indexing the rendered parameter list of the typed path. -/
theorem renderParamsFrom_getElem (variadic : Bool) (numParams : Nat) :
    ∀ (l : List TVar) (k j : Nat),
      (renderParamsFrom variadic numParams k l)[j]? =
        (l[j]?).map (renderParam variadic numParams (k + j)) := by
  intro l
  induction l with
  | nil => intro k j; simp [renderParamsFrom]
  | cons p rest ih =>
      intro k j
      cases j with
      | zero => simp [renderParamsFrom]
      | succ j2 =>
          simp only [renderParamsFrom, List.getElem?_cons_succ]
          rw [ih (k + 1) j2]
          have h : k + 1 + j2 = k + (j2 + 1) := by omega
          rw [h]

/-- when the single-character separator has no last-occurrence index, it
does not occur in the string. -/
theorem listLastIndex_single_none {c : Char} :
    ∀ {s : List Char}, listLastIndex [c] s = none → c ∉ s := by
  intro s
  induction s with
  | nil => intro _ h; simp at h
  | cons a rest ih =>
      intro h
      simp only [listLastIndex] at h
      cases hrec : listLastIndex [c] rest with
      | some k => rw [hrec] at h; cases h
      | none =>
          rw [hrec] at h
          by_cases hp : List.isPrefixOf [c] (a :: rest) = true
          · rw [if_pos hp] at h; cases h
          · intro hmem
            rcases List.mem_cons.mp hmem with hb | hr
            · subst hb
              exact hp (by simp [List.isPrefixOf])
            · exact ih hrec hr

/-- conversely, an absent character yields no last-occurrence index. -/
theorem listLastIndex_single_none_of_not_mem {c : Char} :
    ∀ {s : List Char}, c ∉ s → listLastIndex [c] s = none := by
  intro s
  induction s with
  | nil => intro _; simp [listLastIndex]
  | cons a rest ih =>
      intro h
      have hr : c ∉ rest := fun hm => h (List.mem_cons_of_mem a hm)
      have ha : c ≠ a := fun he => h (he ▸ List.mem_cons_self a rest)
      simp only [listLastIndex, ih hr]
      have hp : List.isPrefixOf [c] (a :: rest) = false := by
        simp [List.isPrefixOf]
        exact fun he => absurd he ha
      simp [hp]

/-- a string with a last-occurrence index of a single-character separator
decomposes around that index, and the suffix holds no further separator. -/
theorem listLastIndex_single_some {c : Char} :
    ∀ {s : List Char} {i : Nat}, listLastIndex [c] s = some i →
      s.take i ++ c :: s.drop (i + 1) = s ∧ c ∉ s.drop (i + 1) := by
  intro s
  induction s with
  | nil => intro i h; simp [listLastIndex] at h
  | cons a rest ih =>
      intro i h
      simp only [listLastIndex] at h
      cases hrec : listLastIndex [c] rest with
      | some k =>
          rw [hrec] at h
          cases h
          refine ⟨?_, (ih hrec).2⟩
          have h2 := (ih hrec).1
          simpa [List.take_succ_cons, List.drop_succ_cons] using h2
      | none =>
          rw [hrec] at h
          by_cases hp : List.isPrefixOf [c] (a :: rest) = true
          · rw [if_pos hp] at h
            cases h
            have ha : c = a := by
              simp [List.isPrefixOf] at hp
              exact hp
            subst ha
            exact ⟨by simp, listLastIndex_single_none hrec⟩
          · rw [if_neg hp] at h
            cases h

/-- the first space in name-space-type text sits right after the name when
the name itself is space-free. -/
theorem firstIndexOfSpace_concat :
    ∀ (n : List Char), ' ' ∉ n →
      ∀ (t : List Char), firstIndexOfSpace (n ++ ' ' :: t) = some n.length := by
  intro n
  induction n with
  | nil => intro _ t; simp [firstIndexOfSpace]
  | cons a rest ih =>
      intro h t
      have ha : a ≠ ' ' := fun he => h (he ▸ List.mem_cons_self a rest)
      have hr : ' ' ∉ rest := fun hm => h (List.mem_cons_of_mem a hm)
      simp only [List.cons_append, firstIndexOfSpace, if_neg ha]
      simp [ih hr t]

/-- splitting a rendered "name type" entry at the first space recovers the
name whenever the name holds no space (the type text may hold spaces). -/
theorem splitN2_head (nm t : String) (h : ' ' ∉ nm.data) :
    (splitN2 (nm ++ " " ++ t)).headD "" = nm := by
  have hdata : (nm ++ " " ++ t).data = nm.data ++ ' ' :: t.data := by
    rw [String.data_append, String.data_append]
    simp
  simp only [splitN2, hdata, firstIndexOfSpace_concat nm.data h t.data]
  simp only [List.headD_cons]
  have htake : (nm.data ++ ' ' :: t.data).take nm.data.length = nm.data :=
    List.take_left nm.data (' ' :: t.data)
  rw [htake]

/-! Claim theorems. -/

/-- C1, counterexample: an interface embedding io.Reader (declaring Read)
and then declaring its own Read() extracts to a method list holding the
name Read twice — method names are not unique and no occurrence is
dropped, contradicting the claimed later-occurrence-wins deduplication. -/
theorem C1_counterexample :
    (extractMethodsFromInterface 1 stdEnvC1 embFLC1).map Method.methodName
      = ["Read", "Read"]
    ∧ ¬ ((extractMethodsFromInterface 1 stdEnvC1 embFLC1).map
          Method.methodName).Nodup :=
  ⟨rfl, by decide⟩

/-- C1, amended: the embedded interface's methods are spliced in at the
position of the embedding reference — the result is the fields before the
embedding, then the embedded interface's extraction, then the fields after
— and no deduplication is applied to the concatenation. -/
theorem C1_embedded_splice (fuel : Nat) (env : PkgEnv) (pre post : FieldList)
    (pkgN selName : String) (pkg : Pkg) (flB : FieldList)
    (hne : pkgN ≠ "")
    (hpkg : lookupPkg env pkgN = some pkg)
    (hdecl : findIfaceDecl pkg selName = some flB) :
    extractMethodsFromInterface (fuel + 1) env
        (appendFL pre (.fcons (.mk [] (.selector (.ident pkgN) selName)) post))
      = extractMethodsFromInterface (fuel + 1) env pre
        ++ (extractMethodsFromInterface fuel env flB
            ++ extractMethodsFromInterface (fuel + 1) env post) := by
  simp only [extractMethodsFromInterface, processFields_append, processFields,
    processField, findEmbeddedInterfaceMethods]
  simp [hne, hpkg, hdecl]

/-- C1, witness for the splice theorem at a concrete interface
Close(); io.Reader; Flush(). -/
theorem C1_embedded_splice_wit :
    extractMethodsFromInterface 1 stdEnvC1
        (appendFL preFLC1
          (.fcons (.mk [] (.selector (.ident "io") "Reader")) postFLC1))
      = extractMethodsFromInterface 1 stdEnvC1 preFLC1
        ++ (extractMethodsFromInterface 0 stdEnvC1 ioReaderFL
            ++ extractMethodsFromInterface 1 stdEnvC1 postFLC1) :=
  C1_embedded_splice 0 stdEnvC1 preFLC1 postFLC1 "io" "Reader"
    [("Reader", Expr.ifaceT ioReaderFL)] ioReaderFL (by decide) rfl rfl

/-- C2: a bare-identifier embedded entry contributes no methods at all —
findEmbeddedInterfaceMethods is called with an empty package name, which
its guard rejects for every environment and every fuel, so the embedded
interface's methods are never included (the claimed same-package lookup
does not happen). -/
theorem C2_bare_embedded_dropped (fuel : Nat) (env : PkgEnv) (name : String)
    (rest : FieldList) :
    extractMethodsFromInterface fuel env (.fcons (.mk [] (.ident name)) rest)
      = extractMethodsFromInterface fuel env rest := by
  cases fuel <;>
    simp [extractMethodsFromInterface, processFields, processField,
      findEmbeddedInterfaceMethods]

/-- C3, counterexample: on the syntactic fallback path a variadic
parameter args ...string is an ast.Ellipsis node, which formatNode's
switch does not handle — the rendered parameter is the inline unsupported
marker and the variadic marker is not retained. -/
theorem C3_counterexample :
    extractMethodsFromInterface 0 [] variadicFLC3
      = [⟨"Foo", ["args /* unsupported: *ast.Ellipsis */"], [], none⟩]
    ∧ strContains "args /* unsupported: *ast.Ellipsis */" "..." = false :=
  ⟨rfl, by decide⟩

/-- C3, amended: on the typed extraction path the final parameter of a
variadic signature whose type is a slice renders with the variadic marker
prefixed to the unqualified element type; on the syntactic fallback path
an ast.Ellipsis parameter type renders as the inline unsupported marker
instead. -/
theorem C3_variadic_marker (mn : String) (sig : TSig) (p : TVar) (e : TType)
    (j : Nat)
    (hv : sig.variadic = true)
    (hj : j = sig.params.length - 1)
    (hp : sig.params[j]? = some p)
    (he : p.type = TType.slice e) :
    (typedMethodOf mn sig).parameters[j]?
      = some ((if p.name = "" then "arg" ++ toString j else p.name)
          ++ " " ++ ("..." ++ typeStringBare e))
    ∧ (∀ elt : Expr,
        formatNode (.ellipsisT elt) = "/* unsupported: *ast.Ellipsis */") := by
  refine ⟨?_, fun elt => rfl⟩
  have hidx := renderParamsFrom_getElem sig.variadic sig.params.length
    sig.params 0 j
  simp only [typedMethodOf, hidx, hp, Nat.zero_add]
  simp [renderParam, he, hv, hj]

/-- C3, witness: the typed signature of Foo(args ...string) renders its
parameter as "args ...string", while the syntactic path renders the same
declaration's parameter type as the unsupported marker. -/
theorem C3_variadic_marker_wit :
    (typedMethodOf "Foo" sigC3).parameters[0]? = some "args ...string"
    ∧ formatNode (.ellipsisT (.ident "string"))
        = "/* unsupported: *ast.Ellipsis */" := by
  have h := C3_variadic_marker "Foo" sigC3
    ⟨"args", .slice (.basic "string"), [], ""⟩ (.basic "string") 0
    rfl rfl rfl rfl
  exact ⟨h.1, h.2 (.ident "string")⟩

/-- C4, counterexample: on the syntactic fallback path an unnamed
parameter is rendered as its bare type string — Foo(int) extracts with
parameter entry "int", not the claimed synthesized placeholder
"arg0 int". -/
theorem C4_counterexample :
    extractMethodsFromInterface 0 [] unnamedParamFLC4
      = [⟨"Foo", ["int"], [], none⟩]
    ∧ ("int" : String) ≠ "arg0 int" :=
  ⟨rfl, by decide⟩

/-- C4, amended: on the typed extraction path an unnamed parameter at
index j is assigned the placeholder name arg<j> and an unnamed result is
rendered as a bare type string; on the syntactic fallback path an unnamed
parameter is rendered as its bare type string with no synthesized name,
exactly like an unnamed result. -/
theorem C4_unnamed_bindings (mn : String) (sig : TSig) (j : Nat) (p : TVar)
    (hp : sig.params[j]? = some p) (hname : p.name = "") :
    (∃ ts : String,
        (typedMethodOf mn sig).parameters[j]?
          = some ("arg" ++ toString j ++ " " ++ ts))
    ∧ (∀ r : TVar, r.name = "" → renderResult r = typeStringQualified r.type)
    ∧ ((typedMethodOf mn sig).results = sig.results.map renderResult)
    ∧ (∀ (t : Expr) (rest : FieldList),
        extractParams (.ofl (.fcons (.mk [] t) rest))
          = formatNode t :: fieldStrs rest) := by
  refine ⟨?_, fun r hr => by simp [renderResult, hr], rfl, fun t rest => by
    simp [extractParams, fieldStrs]⟩
  have hidx := renderParamsFrom_getElem sig.variadic sig.params.length
    sig.params 0 j
  have hval : (typedMethodOf mn sig).parameters[j]?
      = some (renderParam sig.variadic sig.params.length j p) := by
    simp only [typedMethodOf, hidx, hp, Nat.zero_add]
    simp
  rw [hval]
  simp [renderParam, hname]

/-- C4, witness: the typed signature with one unnamed int parameter and
one unnamed string result gets parameter binding "arg0 int" and bare
result rendering. -/
theorem C4_unnamed_bindings_wit :
    (∃ ts : String,
        (typedMethodOf "M" sigC4).parameters[0]?
          = some ("arg" ++ toString 0 ++ " " ++ ts))
    ∧ renderResult ⟨"", .basic "string", [], ""⟩
        = typeStringQualified (.basic "string")
    ∧ (typedMethodOf "M" sigC4).results = sigC4.results.map renderResult
    ∧ extractParams (.ofl (.fcons (.mk [] (.ident "int")) .fnil))
        = formatNode (.ident "int") :: fieldStrs .fnil := by
  have h := C4_unnamed_bindings "M" sigC4 0 ⟨"", .basic "int", [], ""⟩ rfl rfl
  exact ⟨h.1, h.2.1 _ rfl, h.2.2.1, h.2.2.2 _ _⟩

/-- C5: the reference is split at the last separator occurrence — when a
dot occurs, parseReference yields a qualifier and a name that re-assemble
to the input around that dot with no dot left in the name (so every dot of
a multi-segment qualifier stays in the qualifier); without a dot the whole
reference is the interface name and the qualifier is empty. -/
theorem C5_reference_last_separator (s : String) :
    ('.' ∈ s.data →
      ∃ q n : String, parseReference s = (q, n)
        ∧ q.data ++ '.' :: n.data = s.data ∧ '.' ∉ n.data)
    ∧ ('.' ∉ s.data → parseReference s = ("", s)) := by
  constructor
  · intro hmem
    cases hidx : listLastIndex ['.'] s.data with
    | none => exact absurd hmem (listLastIndex_single_none hidx)
    | some i =>
        obtain ⟨hdec, hnot⟩ := listLastIndex_single_some hidx
        refine ⟨String.mk (s.data.take i), String.mk (s.data.drop (i + 1)),
          ?_, ?_, ?_⟩
        · have hidx2 : listLastIndex (String.data ".") s.data = some i := hidx
          simp [parseReference, SplitRight, hidx2]
        · exact hdec
        · exact hnot
  · intro hnm
    have hidx2 : listLastIndex (String.data ".") s.data = none :=
      listLastIndex_single_none_of_not_mem hnm
    simp [parseReference, SplitRight, hidx2]

/-- C5, witness: a multi-segment reference keeps its full qualifier, a
bare reference keeps an empty qualifier. -/
theorem C5_reference_last_separator_wit :
    (∃ q n : String, parseReference "a/b/c.Iface" = (q, n)
        ∧ q.data ++ '.' :: n.data = "a/b/c.Iface".data ∧ '.' ∉ n.data)
    ∧ parseReference "Stringer" = ("", "Stringer")
    ∧ parseReference "a/b/c.Iface" = ("a/b/c", "Iface") :=
  ⟨(C5_reference_last_separator "a/b/c.Iface").1 (by decide),
   (C5_reference_last_separator "Stringer").2 (by decide),
   rfl⟩

/-- C6: two methods whose signatures both use package io make the
aggregation in main append io twice — the referenced-namespaces list is
not deduplicated across methods, although the Generator.Imports field is
documented as a deduplicated list. -/
theorem C6_duplicated_namespaces :
    collectImports [typedMethodOf "MA" sigC6A, typedMethodOf "MB" sigC6B]
      = ["io", "io"]
    ∧ ¬ (collectImports [typedMethodOf "MA" sigC6A,
          typedMethodOf "MB" sigC6B]).Nodup :=
  ⟨rfl, by decide⟩

/-- every field contributes at least one entry to NumFields. -/
theorem numFieldsFL_pos (f : Field) (rest : FieldList) :
    1 ≤ numFieldsFL (.fcons f rest) := by
  cases f with
  | mk names ty =>
      simp only [numFieldsFL]
      split <;> omega

/-- the parenthesized branch of formatFuncResults: whenever the
single-unnamed-field condition fails, the result list renders as the
space-prefixed parenthesized join. -/
theorem formatFuncResults_paren (names : List String) (ty : Expr)
    (rest : FieldList)
    (h : ¬ (numFieldsFL (.fcons (.mk names ty) rest) = 1
            ∧ names.length = 0)) :
    formatFuncResults (.ofl (.fcons (.mk names ty) rest))
      = " (" ++ String.intercalate ", "
          (fieldStrs (.fcons (.mk names ty) rest)) ++ ")" := by
  have h0 : ¬ numFieldsFL (.fcons (.mk names ty) rest) = 0 := by
    have := numFieldsFL_pos (.mk names ty) rest
    omega
  simp only [formatFuncResults]
  rw [if_neg h0, if_neg h]

/-- C7, counterexample: the template-level formatMethodResults renders a
method's single unnamed result parenthesized, " (string)", not as the
claimed bare " string". -/
theorem C7_counterexample :
    formatMethodResults ["string"] = " (string)"
    ∧ (" (string)" : String) ≠ " string" :=
  ⟨rfl, by decide⟩

/-- C7, amended: the claimed shapes hold for the expression-level
formatFuncResults — nothing for zero fields, a space-prefixed bare type
for exactly one unnamed field, the space-prefixed parenthesized join for a
named field or two or more fields — while the method-level
formatMethodResults renders the empty list as nothing and every non-empty
result list parenthesized, including a single unnamed result. -/
theorem C7_result_rendering :
    (formatFuncResults .onil = "")
    ∧ (formatFuncResults (.ofl .fnil) = "")
    ∧ (∀ t : Expr,
        formatFuncResults (.ofl (.fcons (.mk [] t) .fnil))
          = " " ++ formatNode t)
    ∧ (∀ (nm : String) (nms : List String) (t : Expr) (rest : FieldList),
        formatFuncResults (.ofl (.fcons (.mk (nm :: nms) t) rest))
          = " (" ++ String.intercalate ", "
              (fieldStrs (.fcons (.mk (nm :: nms) t) rest)) ++ ")")
    ∧ (∀ (t : Expr) (f : Field) (rest : FieldList),
        formatFuncResults (.ofl (.fcons (.mk [] t) (.fcons f rest)))
          = " (" ++ String.intercalate ", "
              (fieldStrs (.fcons (.mk [] t) (.fcons f rest))) ++ ")")
    ∧ (formatMethodResults [] = "")
    ∧ (∀ (r : String) (rs : List String),
        formatMethodResults (r :: rs)
          = " (" ++ String.intercalate ", " (r :: rs) ++ ")") := by
  refine ⟨rfl, rfl, ?_, ?_, ?_, rfl, fun r rs => rfl⟩
  · intro t
    simp [formatFuncResults, numFieldsFL]
  · intro nm nms t rest
    apply formatFuncResults_paren
    intro hcon
    simp at hcon
  · intro t f rest
    apply formatFuncResults_paren
    intro hcon
    have hpos := numFieldsFL_pos f rest
    have h1 := hcon.1
    simp [numFieldsFL] at h1
    omega

/-- C8: rendering parameters from (name, type) pairs and then extracting
the call-forwarding names by splitting each entry at the first space
recovers exactly the original names in order, provided the names are
space-free — type expressions containing spaces are tolerated because only
the first space splits. -/
theorem C8_roundtrip (pairs : List (String × String))
    (h : ∀ pr ∈ pairs, ' ' ∉ pr.1.data) :
    callParams (pairs.map (fun pr => pr.1 ++ " " ++ pr.2))
      = "(" ++ String.intercalate ", " (pairs.map Prod.fst) ++ ")"
    ∧ (pairs.map (fun pr => pr.1 ++ " " ++ pr.2)).map
        (fun s => (splitN2 s).headD "") = pairs.map Prod.fst := by
  have hmap : (pairs.map (fun pr => pr.1 ++ " " ++ pr.2)).map
      (fun s => (splitN2 s).headD "") = pairs.map Prod.fst := by
    rw [List.map_map]
    apply List.map_congr_left
    intro pr hpr
    exact splitN2_head pr.1 pr.2 (h pr hpr)
  refine ⟨?_, hmap⟩
  cases pairs with
  | nil => rfl
  | cons a rest =>
      simp only [callParams, List.map_cons]
      simp only [List.map_cons] at hmap
      rw [hmap]

/-- C8, witness: the spec's example pair list (x int, y string) renders
and round-trips to the names x and y. -/
theorem C8_roundtrip_wit :
    callParams ["x int", "y string"] = "(x, y)"
    ∧ (["x int", "y string"] : List String).map
        (fun s => (splitN2 s).headD "") = ["x", "y"] := by
  have h := C8_roundtrip [("x", "int"), ("y", "string")] (by decide)
  exact ⟨h.1, h.2⟩

/-- C9: whenever the typed path fails, parseInterface runs the syntactic
fallback on the same parsed reference and returns its outcome, and an
error reaches the caller only when the fallback fails too (the surfaced
error is the fallback's). -/
theorem C9_fallback_dispatch (w : ResolutionWorld) (dir iname : String) :
    (∀ e : String,
        w.typedPath dir (parseReference iname).1 (parseReference iname).2
            = .error e →
        parseInterfaceRun w dir iname
          = w.astPath dir (parseReference iname).1 (parseReference iname).2)
    ∧ (∀ e2 : String, parseInterfaceRun w dir iname = .error e2 →
        (∃ e : String,
            w.typedPath dir (parseReference iname).1 (parseReference iname).2
              = .error e)
        ∧ w.astPath dir (parseReference iname).1 (parseReference iname).2
            = .error e2) := by
  constructor
  · intro e he
    simp [parseInterfaceRun, he]
  · intro e2 h2
    cases ht : w.typedPath dir (parseReference iname).1
        (parseReference iname).2 with
    | ok r => simp [parseInterfaceRun, ht] at h2
    | error e =>
        refine ⟨⟨e, rfl⟩, ?_⟩
        simpa [parseInterfaceRun, ht] using h2

/-- C9, witness: with a typed path that always fails and a fallback that
succeeds, the run returns the fallback's success. -/
theorem C9_fallback_dispatch_wit :
    parseInterfaceRun worldC9 "dir" "io.Reader"
      = worldC9.astPath "dir" (parseReference "io.Reader").1
          (parseReference "io.Reader").2 :=
  (C9_fallback_dispatch worldC9 "dir" "io.Reader").1
    "typed resolution failed" rfl

/-- C10: a typed-path method with zero results keeps a nil Imports map no
matter what its parameters reference — the accumulated import information
is committed to the method only inside the results loop. -/
theorem C10_no_results_no_imports (mn : String) (ps : List TVar) (v : Bool) :
    (typedMethodOf mn ⟨ps, [], v⟩).imports = none := rfl

end DuckImpl
